import Mathlib

/-!
Verification of the BTC levels pipeline (`src/unnamed/part_000` and
`src/src/index.js`) against its natural-language specification.

All JavaScript numbers are modelled as exact rationals (`ℚ`); machine
floating point rounding is not modelled.  Where JavaScript semantics are
value-dependent (empty-array `Math.max`, `NaN` propagation, falsy `|| null`,
in-place `Array.prototype.sort`) the definitions below reproduce the
behaviour explicitly and note it in their doc comments.
-/

namespace BTCLevels

/-- One daily price bar, as built in `getHistoricalBTCData`
(`part_000` lines 61-67): `{ time, high, low, close, volume }`. -/
structure Bar where
  time : ℤ
  high : ℚ
  low : ℚ
  close : ℚ
  volume : ℚ
deriving DecidableEq, Repr

/-- One validated predefined level, as built in `validatePredefinedLevels`
(line 112): `{ level, touches, reversals }`. -/
structure ValidatedLevel where
  level : ℚ
  touches : ℕ
  reversals : ℕ
deriving DecidableEq, Repr

/-- JS `Math.max(...l)` for the nonempty slices used by the detector
(the code never applies it to an empty slice except where noted). -/
def listMax : List ℚ → ℚ
  | [] => 0
  | x :: xs => xs.foldl max x

/-- JS `Math.min(...l)` for the nonempty slices used by the detector. -/
def listMin : List ℚ → ℚ
  | [] => 0
  | x :: xs => xs.foldl min x

/-- JS `arr.slice(a, b)` for `0 ≤ a ≤ b`: the elements at indices
`[a, b)`. -/
def sliceJS (l : List ℚ) (a b : ℕ) : List ℚ := (l.take b).drop a

/-- JS numeric ascending sort `arr.sort((a, b) => a - b)`. -/
def jsSort (l : List ℚ) : List ℚ := l.insertionSort (· ≤ ·)

/-- JS `[...new Set(l)]`: deduplication keeping the first occurrence of
each value, in insertion order. -/
def jsSetDedup (l : List ℚ) : List ℚ :=
  l.foldl (fun acc x => if x ∈ acc then acc else acc ++ [x]) []

/-- JS `x || null` on an optional number: `undefined` and the falsy
number `0` both become `null`. -/
def jsOrNull : Option ℚ → Option ℚ
  | some v => if v = 0 then none else some v
  | none => none

/-- JS `arr.slice(-1)[0]`: the last element of the array, if any. -/
def jsSliceLastElem (l : List ℚ) : Option ℚ := (l.drop (l.length - 1)).head?

/-- Arithmetic mean of a list (`l.reduce((s, x) => s + x, 0) / l.length`,
`part_000` lines 154 and 160). -/
def mean (l : List ℚ) : ℚ := l.sum / (l.length : ℚ)

/-- One iteration of the clustering loop of `clusterLevels`
(`part_000` lines 149-158).  State: (emitted cluster means so far,
current cluster members).  The running representative the code compares
against is `currentCluster[currentCluster.length - 1]`, the last member
pushed. -/
def clusterLoop (tol : ℚ) (st : List ℚ × List ℚ) (x : ℚ) : List ℚ × List ℚ :=
  let lastMember := st.2.getLastD 0
  if |x - lastMember| / lastMember ≤ tol then (st.1, st.2 ++ [x])
  else (st.1 ++ [mean st.2], [x])

/-- `clusterLevels(levels, tolerance)` (`part_000` lines 144-163):
return short inputs unchanged, sort ascending, walk the sorted list
merging each level into the current cluster when it is within
`tolerance` of the last member, emit cluster means, sort the output. -/
def clusterLevels (levels : List ℚ) (tol : ℚ) : List ℚ :=
  if levels.length ≤ 1 then levels
  else
    match jsSort levels with
    | [] => []
    | l0 :: rest =>
      let st := rest.foldl (clusterLoop tol) ([], [l0])
      jsSort (st.1 ++ [mean st.2])

/-- Compositional description of the clustering walk: split a list into
maximal runs in which every element is within `tol` of the element
before it (relative to that previous element).  Since cluster members
are pushed in sorted order, "previous element" and "last cluster member"
coincide; this is the amended form of the spec's clustering sentence. -/
def chunkRuns (tol : ℚ) : List ℚ → List (List ℚ)
  | [] => []
  | [x] => [[x]]
  | x :: y :: xs =>
    let r := chunkRuns tol (y :: xs)
    if |y - x| / x ≤ tol then
      match r with
      | [] => [[x]]
      | c :: cs => (x :: c) :: cs
    else [x] :: r

/-- Clusters emitted by the clustering loop, given the current (nonempty)
cluster `cur` and the remaining sorted levels: intermediate description
used to relate `clusterLevels` to `chunkRuns`. -/
def processFrom (tol : ℚ) (cur : List ℚ) : List ℚ → List (List ℚ)
  | [] => [cur]
  | x :: xs =>
    let lastMember := cur.getLastD 0
    if |x - lastMember| / lastMember ≤ tol then processFrom tol (cur ++ [x]) xs
    else cur :: processFrom tol [x] xs

/-- The clustering procedure exactly as the spec's clustering sentence
states it (claim C1): the running representative of the current cluster
is the arithmetic mean of the members accumulated so far, and a level is
merged when it lies within `tol` of that mean. -/
def specClusterWalk (tol : ℚ) (cur : List ℚ) : List ℚ → List (List ℚ)
  | [] => [cur]
  | x :: xs =>
    if |x - mean cur| / mean cur ≤ tol then specClusterWalk tol (cur ++ [x]) xs
    else cur :: specClusterWalk tol [x] xs

/-- `clusterLevels` as the spec's clustering sentence describes it
(running representative = running mean), for comparison with the code. -/
def clusterLevelsSpecMean (levels : List ℚ) (tol : ℚ) : List ℚ :=
  if levels.length ≤ 1 then levels
  else
    match jsSort levels with
    | [] => []
    | l0 :: rest => jsSort ((specClusterWalk tol [l0] rest).map mean)

/-- A JS loop of the shape `for (i of idxs) { ... if (...) arr.push(v) }`,
with the body abstracted as an optional produced value per index. -/
def jsPushLoop (step : ℕ → Option ℚ) (idxs : List ℕ) : List ℚ :=
  idxs.foldl (fun acc i =>
    match step i with
    | some v => acc ++ [v]
    | none => acc) []

/-- Body of the resistance-detection loop of `getDynamicLevels`
(`part_000` lines 194-201): at index `i` with a full window, `highs[i]`
is pushed when it is the window maximum and its prominence over
`min(highs[max(0, i - d)..i))` is at least the calibrated fraction. -/
def resistanceStep (highs : List ℚ) (w d : ℕ) (prom : ℚ) (i : ℕ) : Option ℚ :=
  if w ≤ i ∧ i + w < highs.length then
    let v := highs.getD i 0
    if v = listMax (sliceJS highs (i - w) (i + w + 1)) then
      let leftMin := listMin (sliceJS highs (i - d) i)
      if prom ≤ (v - leftMin) / v then some v else none
    else none
  else none

/-- Raw resistances of `part_000` (window 20, distance 30 are supplied at
the call site). -/
def resistancesPart000 (highs : List ℚ) (w d : ℕ) (prom : ℚ) : List ℚ :=
  jsPushLoop (resistanceStep highs w d prom) (List.range highs.length)

/-- Body of the support-detection loop of `part_000` (lines 205-212): at
index `i` with a full window, `lows[i]` is pushed when it is the window
minimum and `(max(highs[i..min(len, i + d))) - lows[i]) / lows[i]` is at
least the calibrated fraction.  NOTE: the right-hand maximum is taken
over the HIGHS series. -/
def supportStepPart000 (highs lows : List ℚ) (w d : ℕ) (prom : ℚ) (i : ℕ) : Option ℚ :=
  if w ≤ i ∧ i + w < lows.length then
    let v := lows.getD i 0
    if v = listMin (sliceJS lows (i - w) (i + w + 1)) then
      let rightMax := listMax (sliceJS highs i (min highs.length (i + d)))
      if prom ≤ (rightMax - v) / v then some v else none
    else none
  else none

/-- Raw supports of `part_000`. -/
def supportsPart000 (highs lows : List ℚ) (w d : ℕ) (prom : ℚ) : List ℚ :=
  jsPushLoop (supportStepPart000 highs lows w d prom) (List.range lows.length)

/-- Body of the support-detection loop of `src/src/index.js`
(lines 167-174): identical to `part_000` except that the right-hand
maximum is taken over the LOWS series itself. -/
def supportStepIndex (lows : List ℚ) (w d : ℕ) (prom : ℚ) (i : ℕ) : Option ℚ :=
  if w ≤ i ∧ i + w < lows.length then
    let v := lows.getD i 0
    if v = listMin (sliceJS lows (i - w) (i + w + 1)) then
      let rightMax := listMax (sliceJS lows i (min lows.length (i + d)))
      if prom ≤ (rightMax - v) / v then some v else none
    else none
  else none

/-- Raw supports of `src/src/index.js`. -/
def supportsIndex (lows : List ℚ) (w d : ℕ) (prom : ℚ) : List ℚ :=
  jsPushLoop (supportStepIndex lows w d prom) (List.range lows.length)

/-- Support detection exactly as claim C2 words it, over an arbitrary
prominence series `ps`: index `i` with a full window is a candidate
minimum iff `series[i]` equals the window minimum; its prominence is
`(max(ps[i..i+minDistance)) - series[i]) / series[i]`; it is accepted
iff that prominence is at least the calibrated fraction.  The claim
instantiates `ps` with the lows series itself. -/
def supportCandidates (series ps : List ℚ) (w d : ℕ) (prom : ℚ) : List ℚ :=
  (List.range series.length).filterMap (fun i =>
    if w ≤ i ∧ i + w < series.length
        ∧ series.getD i 0 = listMin (sliceJS series (i - w) (i + w + 1))
        ∧ prom ≤ (listMax (sliceJS ps i (min ps.length (i + d))) - series.getD i 0)
            / series.getD i 0
    then some (series.getD i 0) else none)

/-- `volumeWeightLevels(levels, historicalData)` (`part_000` lines
166-178): keep a level only when the total volume of the days whose low
or high lies within 1% of it reaches twice the series-wide average daily
volume.  On an empty series the JS average is `NaN` and every comparison
against it is false, so every level is discarded. -/
def volumeWeightLevels (levels : List ℚ) (data : List Bar) : List ℚ :=
  if data.isEmpty then []
  else
    let avgVolume := (data.map Bar.volume).sum / (data.length : ℚ)
    levels.filter (fun level =>
      let volumeScore :=
        ((data.filter (fun day =>
            |day.low - level| / level < 1 / 100 ∨
            |day.high - level| / level < 1 / 100)).map Bar.volume).sum
      avgVolume * 2 ≤ volumeScore)

/-- Result record of `getDynamicLevels`:
`{ keyLevels, support, resistance }`. -/
structure LevelsResult where
  keyLevels : List ℚ
  support : Option ℚ
  resistance : Option ℚ
deriving DecidableEq, Repr

/-- The post-processing tail of `getDynamicLevels` in `part_000` (lines
214-232): merge and deduplicate the raw supports and resistances, filter
to `[0.3 × price, 2.5 × price]`, sort, volume-weight, cluster at 1%,
truncate to 20; the closest picks are taken from the RAW `supports` and
`resistances` arrays (`supports.filter(s => s < p).slice(-1)[0] || null`
and `resistances.filter(r => r > p)[0] || null`). -/
def postProcessPart000 (supports resistances : List ℚ) (currentPrice : ℚ)
    (data : List Bar) : LevelsResult :=
  let all0 := jsSetDedup (supports ++ resistances)
  let minLevel := currentPrice * (3 / 10)
  let maxLevel := currentPrice * (5 / 2)
  let all1 := jsSort (all0.filter (fun l => minLevel ≤ l ∧ l ≤ maxLevel))
  let all2 := volumeWeightLevels all1 data
  let all3 := clusterLevels all2 (1 / 100)
  { keyLevels := all3.take 20
    support := jsOrNull (jsSliceLastElem (supports.filter (fun s => s < currentPrice)))
    resistance := jsOrNull ((resistances.filter (fun r => currentPrice < r)).head?) }

/-- `getDynamicLevels(currentPrice, calibratedProminence)` of `part_000`
(lines 181-236), with the cache read modelled as the explicit
`dataOpt` argument: a missing series (`null`) or one shorter than 100
bars yields the empty result; otherwise detection (window 20, distance
30) feeds the post-processor. -/
def getDynamicLevelsPart000 (dataOpt : Option (List Bar))
    (currentPrice prom : ℚ) : LevelsResult :=
  match dataOpt with
  | none => ⟨[], none, none⟩
  | some data =>
    if data.length < 100 then ⟨[], none, none⟩
    else
      let highs := data.map Bar.high
      let lows := data.map Bar.low
      let resistances := resistancesPart000 highs 20 30 prom
      let supports := supportsPart000 highs lows 20 30 prom
      postProcessPart000 supports resistances currentPrice data

/-- The greatest element of `retained` strictly below `price`, as claim
C3 words the support pick ("greatest retained support level strictly
below currentPrice, or null"). -/
def greatestBelow (retained : List ℚ) (price : ℚ) : Option ℚ :=
  (jsSort (retained.filter (fun s => s < price))).getLast?

/-- The range filter of post-processing step 1 applied to one raw list
(`part_000` line 220): keep levels within `[0.3 × price, 2.5 × price]`. -/
def rangeFilter (levels : List ℚ) (price : ℚ) : List ℚ :=
  levels.filter (fun l => price * (3 / 10) ≤ l ∧ l ≤ price * (5 / 2))

/-- Module-level cache state of `part_000` (lines 23-24):
`cachedHistoricalData` and `lastCacheTime`. -/
structure CacheState where
  cachedHistoricalData : Option (List Bar)
  lastCacheTime : Option ℤ
deriving DecidableEq, Repr

/-- `CACHE_DURATION_MS` (line 25): 24 hours in milliseconds. -/
def CACHE_DURATION_MS : ℤ := 24 * 60 * 60 * 1000

/-- Normalization of a fetched payload (`part_000` lines 61-71):
reverse to oldest-first and keep only bars within the last three years
of `now` (milliseconds). -/
def processFetched (raw : List Bar) (now : ℤ) : List Bar :=
  let threeYearsAgo : ℚ := ((now : ℚ) - 3 * 365 * 24 * 60 * 60 * 1000) / 1000
  raw.reverse.filter (fun d => threeYearsAgo ≤ (d.time : ℚ))

/-- `getHistoricalBTCData()` (`part_000` lines 49-82) with the ambient
state, clock and network outcome made explicit.  `fetched = none` models
a failed axios call.  The returned pair is (value returned to the
caller, module state after the call).  JS truthiness of
`cachedHistoricalData && lastCacheTime` is modelled by both options
being `some` (the stored millisecond timestamp is never the falsy 0 in
practice). -/
def getHistoricalBTCData (st : CacheState) (now : ℤ)
    (fetched : Option (List Bar)) : Option (List Bar) × CacheState :=
  let fetchBranch : Option (List Bar) × CacheState :=
    match fetched with
    | some raw =>
      let data := processFetched raw now
      (some data, ⟨some data, some now⟩)
    | none =>
      match st.cachedHistoricalData with
      | some d => (some d, st)
      | none => (none, st)
  match st.cachedHistoricalData, st.lastCacheTime with
  | some d, some t => if now - t < CACHE_DURATION_MS then (some d, st) else fetchBranch
  | _, _ => fetchBranch

/-- Per-level fractional swings collected by `calibrateFromValidated`
(`part_000` lines 127-134): for each adjacent bar pair whose first bar's
low or high lies within 2% of the level, the one-bar-ahead close-to-close
move as a fraction of the level. -/
def swingsNear (level : ℚ) (data : List Bar) : List ℚ :=
  ((data.zip data.tail).filter (fun p =>
      |p.1.low - level| / level < 1 / 50 ∨ |p.1.high - level| / level < 1 / 50)).map
    (fun p => |p.2.close - p.1.close| / level)

/-- Average swing near one level, 0 when no bar qualifies
(`part_000` line 135). -/
def levelProminence (level : ℚ) (data : List Bar) : ℚ :=
  let swings := swingsNear level data
  if swings.isEmpty then 0 else swings.sum / (swings.length : ℚ)

/-- The raw prominence estimate of the calibrator: the per-level average
swings averaged across validated levels (`part_000` lines 124-138). -/
def calibrateCore (validated : List ValidatedLevel) (data : List Bar) : ℚ :=
  (validated.map (fun v => levelProminence v.level data)).sum / (validated.length : ℚ)

/-- `calibrateFromValidated` of `part_000` (lines 121-141): default 0.02
on an empty validated list, otherwise `max(0.02, rawEstimate)`. -/
def calibrateFromValidated (validated : List ValidatedLevel) (data : List Bar) : ℚ :=
  if validated.isEmpty then 1 / 50
  else max (1 / 50) (calibrateCore validated data)

/-- `calibrateFromValidated` of `src/src/index.js` (lines 120-140): the
body is identical but the empty-list default is 0.05 while the floor in
the `max` is still 0.02. -/
def calibrateFromValidatedIndex (validated : List ValidatedLevel) (data : List Bar) : ℚ :=
  if validated.isEmpty then 1 / 20
  else max (1 / 50) (calibrateCore validated data)

/-- The similarity computation of the report handler (`part_000` lines
315-322): 0 unless both sets are nonempty, otherwise
`(matches.length / keyLevels.length) * 100` where a detected level
matches when some validated level is within 2% of it (relative to the
validated level).  The subsequent `.toFixed(1)` is display formatting
and is not modelled. -/
def similarityScore (keyLevels : List ℚ) (validated : List ValidatedLevel) : ℚ :=
  if 0 < validated.length ∧ 0 < keyLevels.length then
    let matchList := keyLevels.filter (fun d0 =>
      validated.any (fun v => |d0 - v.level| / v.level ≤ 1 / 50))
    ((matchList.length : ℚ) / (keyLevels.length : ℚ)) * 100
  else 0

/-- Count of detected levels having at least one validated level within
2%, as claim C6 words the numerator. -/
def matchedCount (keyLevels : List ℚ) (validated : List ValidatedLevel) : ℕ :=
  keyLevels.countP (fun d0 =>
    validated.any (fun v => |d0 - v.level| / v.level ≤ 1 / 50))

/-- `clusterLevels` together with its observable effect on the caller's
array: the pair is (state of the `levels` array after the call, returned
value).  JS `Array.prototype.sort` sorts the receiver IN PLACE
(`part_000` line 146), so after a call with two or more levels the
caller's array holds the sorted permutation; the guard at line 145
returns short arrays without touching them. -/
def clusterLevelsCall (levels : List ℚ) (tol : ℚ) : List ℚ × List ℚ :=
  (if levels.length ≤ 1 then levels else jsSort levels, clusterLevels levels tol)

/-! ### Helper lemmas about sorting and means -/

lemma jsSort_sorted (l : List ℚ) : List.Sorted (· ≤ ·) (jsSort l) :=
  List.sorted_insertionSort _ l

lemma jsSort_perm (l : List ℚ) : (jsSort l).Perm l :=
  List.perm_insertionSort _ l

lemma jsSort_eq_self {l : List ℚ} (h : List.Sorted (· ≤ ·) l) : jsSort l = l :=
  h.insertionSort_eq

lemma mean_singleton (x : ℚ) : mean [x] = x := by
  simp [mean]

lemma mean_le_of_forall_le {l : List ℚ} {b : ℚ} (hne : l ≠ [])
    (h : ∀ x ∈ l, x ≤ b) : mean l ≤ b := by
  have hlen : 0 < (l.length : ℚ) := by
    have := List.length_pos.2 hne
    exact_mod_cast this
  have hsum : l.sum ≤ l.length • b := List.sum_le_card_nsmul l b h
  rw [nsmul_eq_mul] at hsum
  rw [mean, div_le_iff hlen]
  linarith [hsum]

lemma le_mean_of_forall_le {l : List ℚ} {a : ℚ} (hne : l ≠ [])
    (h : ∀ x ∈ l, a ≤ x) : a ≤ mean l := by
  have hlen : 0 < (l.length : ℚ) := by
    have := List.length_pos.2 hne
    exact_mod_cast this
  have hsum : l.length • a ≤ l.sum := List.card_nsmul_le_sum l a h
  rw [nsmul_eq_mul] at hsum
  rw [mean, le_div_iff hlen]
  linarith [hsum]

lemma mean_pos {l : List ℚ} (hne : l ≠ []) (h : ∀ x ∈ l, 0 < x) :
    0 < mean l := by
  have hlen : 0 < (l.length : ℚ) := by
    have := List.length_pos.2 hne
    exact_mod_cast this
  exact div_pos (List.sum_pos l h hne) hlen

/-! ### The clustering fold equals the compositional run decomposition -/

lemma foldl_clusterLoop (tol : ℚ) :
    ∀ (xs pre cur : List ℚ),
      (xs.foldl (clusterLoop tol) (pre, cur)).1
        ++ [mean (xs.foldl (clusterLoop tol) (pre, cur)).2]
      = pre ++ (processFrom tol cur xs).map mean := by
  intro xs
  induction xs with
  | nil => intro pre cur; simp [processFrom]
  | cons x xs ih =>
    intro pre cur
    by_cases h : |x - cur.getLastD 0| / cur.getLastD 0 ≤ tol
    · simp only [List.foldl_cons, clusterLoop, processFrom, h, if_pos]
      exact ih pre (cur ++ [x])
    · simp only [List.foldl_cons, clusterLoop, processFrom, h, if_neg, not_false_iff]
      rw [ih (pre ++ [mean cur]) [x]]
      simp

lemma chunkRuns_cons_head (tol : ℚ) (x : ℚ) (xs : List ℚ) :
    ∃ t cs, chunkRuns tol (x :: xs) = (x :: t) :: cs := by
  cases xs with
  | nil => exact ⟨[], [], rfl⟩
  | cons y ys =>
    rw [chunkRuns]
    by_cases h : |y - x| / x ≤ tol
    · simp only [h, if_pos]
      cases hr : chunkRuns tol (y :: ys) with
      | nil => exact ⟨[], [], rfl⟩
      | cons c cs => exact ⟨c, cs, rfl⟩
    · simp only [h, if_neg, not_false_iff]
      exact ⟨[], chunkRuns tol (y :: ys), rfl⟩

lemma chunkRuns_pair (tol x y : ℚ) (xs : List ℚ) :
    chunkRuns tol (x :: y :: xs) =
      if |y - x| / x ≤ tol then
        match chunkRuns tol (y :: xs) with
        | [] => [[x]]
        | c :: cs => (x :: c) :: cs
      else [x] :: chunkRuns tol (y :: xs) := rfl

lemma processFrom_cons (tol : ℚ) (cur : List ℚ) (x : ℚ) (xs : List ℚ) :
    processFrom tol cur (x :: xs) =
      if |x - cur.getLastD 0| / cur.getLastD 0 ≤ tol then processFrom tol (cur ++ [x]) xs
      else cur :: processFrom tol [x] xs := rfl

lemma processFrom_eq_chunkRuns (tol : ℚ) :
    ∀ (xs cur : List ℚ) (c : ℚ), cur.getLast? = some c →
      ∀ t cs, chunkRuns tol (c :: xs) = (c :: t) :: cs →
        processFrom tol cur xs = (cur ++ t) :: cs := by
  intro xs
  induction xs with
  | nil =>
    intro cur c _ t cs hchunk
    have hchunk2 : [[c]] = (c :: t) :: cs := hchunk
    simp only [List.cons.injEq] at hchunk2
    obtain ⟨⟨-, ht⟩, hcs⟩ := hchunk2
    subst hcs
    rw [← ht]
    simp [processFrom]
  | cons x xs ih =>
    intro cur c hlast t cs hchunk
    have hlastD : cur.getLastD 0 = c := by
      rw [List.getLastD_eq_getLast?, hlast]; rfl
    obtain ⟨t', cs', hr⟩ := chunkRuns_cons_head tol x xs
    rw [chunkRuns_pair] at hchunk
    by_cases h : |x - c| / c ≤ tol
    · rw [if_pos h, hr] at hchunk
      simp only [List.cons.injEq] at hchunk
      obtain ⟨⟨-, ht⟩, hcs⟩ := hchunk
      subst hcs
      rw [← ht]
      rw [processFrom_cons, hlastD, if_pos h]
      have hrec := ih (cur ++ [x]) x (List.getLast?_concat cur) t' cs' hr
      rw [hrec, List.append_assoc]
      rfl
    · rw [if_neg h] at hchunk
      simp only [List.cons.injEq] at hchunk
      obtain ⟨⟨-, ht⟩, hcs⟩ := hchunk
      rw [processFrom_cons, hlastD, if_neg h]
      have hrec := ih [x] x rfl t' cs' hr
      rw [hrec]
      rw [← hcs, ← ht]
      simp [hr]

lemma clusterLevels_eq_chunkRuns (levels : List ℚ) (tol : ℚ) :
    clusterLevels levels tol = jsSort ((chunkRuns tol (jsSort levels)).map mean) := by
  by_cases h : levels.length ≤ 1
  · match levels, h with
    | [], _ => simp [clusterLevels, jsSort, List.insertionSort, chunkRuns]
    | [x], _ =>
      simp [clusterLevels, jsSort, List.insertionSort, List.orderedInsert,
        chunkRuns, mean_singleton]
  · rw [clusterLevels, if_neg h]
    have hlen : (jsSort levels).length = levels.length := (jsSort_perm levels).length_eq
    obtain ⟨l0, rest, hs⟩ : ∃ l0 rest, jsSort levels = l0 :: rest := by
      cases hj : jsSort levels with
      | nil => rw [hj] at hlen; simp at hlen; omega
      | cons a b => exact ⟨a, b, rfl⟩
    rw [hs]
    have hfold := foldl_clusterLoop tol rest [] [l0]
    obtain ⟨t, cs, hchunk⟩ := chunkRuns_cons_head tol l0 rest
    have hproc := processFrom_eq_chunkRuns tol rest [l0] l0 rfl t cs hchunk
    show jsSort ((List.foldl (clusterLoop tol) ([], [l0]) rest).1
      ++ [mean (List.foldl (clusterLoop tol) ([], [l0]) rest).2]) = _
    rw [hfold, hproc, hchunk]
    simp

/-! ### Structure of the clustering output -/

lemma chunkRuns_flatten (tol : ℚ) : ∀ l : List ℚ, (chunkRuns tol l).flatten = l := by
  intro l
  induction l with
  | nil => rfl
  | cons x xs ih =>
    cases xs with
    | nil => rfl
    | cons y ys =>
      rw [chunkRuns_pair]
      by_cases h : |y - x| / x ≤ tol
      · rw [if_pos h]
        obtain ⟨t, cs, hr⟩ := chunkRuns_cons_head tol y ys
        rw [hr]
        rw [hr] at ih
        simp only [List.flatten_cons] at ih ⊢
        simp [← ih]
      · rw [if_neg h]
        simp [ih]

lemma chunkRuns_ne_nil (tol : ℚ) : ∀ (l : List ℚ), ∀ ch ∈ chunkRuns tol l, ch ≠ [] := by
  intro l
  induction l with
  | nil => intro ch hch; cases hch
  | cons x xs ih =>
    cases xs with
    | nil =>
      intro ch hch
      have hch2 : ch ∈ [[x]] := hch
      simp at hch2; simp [hch2]
    | cons y ys =>
      intro ch hch
      rw [chunkRuns_pair] at hch
      by_cases h : |y - x| / x ≤ tol
      · rw [if_pos h] at hch
        obtain ⟨t, cs, hr⟩ := chunkRuns_cons_head tol y ys
        rw [hr] at hch
        rcases List.mem_cons.1 hch with rfl | hch2
        · simp
        · exact ih ch (by rw [hr]; exact List.mem_cons_of_mem _ hch2)
      · rw [if_neg h] at hch
        rcases List.mem_cons.1 hch with rfl | hch2
        · simp
        · exact ih ch hch2

lemma getLastD_of_ne_nil {l : List ℚ} (h : l ≠ []) (d : ℚ) :
    l.getLastD d = l.getLast h := by
  rw [List.getLastD_eq_getLast?, List.getLast?_eq_getLast l h]
  rfl

lemma sorted_le_getLastD : ∀ (l : List ℚ), List.Sorted (· ≤ ·) l →
    ∀ x ∈ l, x ≤ l.getLastD 0
  | [], _, x, hx => absurd hx (List.not_mem_nil x)
  | [a], _, x, hx => by
    simp only [List.mem_singleton] at hx
    subst hx; simp
  | a :: b :: t, hs, x, hx => by
    have hrec := sorted_le_getLastD (b :: t) hs.of_cons
    rw [List.getLastD_cons]
    have hbt : (b :: t).getLastD a = (b :: t).getLastD 0 := by
      rw [getLastD_of_ne_nil (by simp) a, getLastD_of_ne_nil (by simp) 0]
    rw [hbt]
    rcases List.mem_cons.1 hx with rfl | hx2
    · calc x ≤ b := List.rel_of_sorted_cons hs b (by simp)
        _ ≤ (b :: t).getLastD 0 := hrec b (by simp)
    · exact hrec x hx2

lemma chunkRuns_boundary (tol : ℚ) : ∀ (l : List ℚ), List.Sorted (· ≤ ·) l →
    (∀ x ∈ l, 0 < x) →
    List.Chain' (fun c1 c2 => c1.getLastD 0 * (1 + tol) < c2.headD 0) (chunkRuns tol l) := by
  intro l
  induction l with
  | nil => intro _ _; simp [chunkRuns]
  | cons x xs ih =>
    cases xs with
    | nil => intro _ _; simp [chunkRuns]
    | cons y ys =>
      intro hs hpos
      have htail := ih hs.of_cons (fun z hz => hpos z (List.mem_cons_of_mem x hz))
      obtain ⟨t, cs, hr⟩ := chunkRuns_cons_head tol y ys
      rw [chunkRuns_pair]
      by_cases h : |y - x| / x ≤ tol
      · rw [if_pos h, hr]
        rw [hr] at htail
        rw [List.chain'_cons'] at htail ⊢
        refine ⟨fun c2 hc2 => ?_, htail.2⟩
        have := htail.1 c2 hc2
        rwa [getLastD_of_ne_nil (l := x :: y :: t) (by simp) 0,
          List.getLast_cons (by simp), ← getLastD_of_ne_nil (l := y :: t) (by simp) 0]
      · rw [if_neg h, hr]
        rw [hr] at htail
        rw [List.chain'_cons']
        refine ⟨fun c2 hc2 => ?_, htail⟩
        have hc2' : c2 = y :: t := by
          simp only [List.head?_cons, Option.mem_def, Option.some.injEq] at hc2
          exact hc2.symm
        subst hc2'
        have hgl : ([x] : List ℚ).getLastD 0 = x := rfl
        have hhd : (y :: t).headD 0 = y := rfl
        rw [hgl, hhd]
        have hx : 0 < x := hpos x (by simp)
        have hxy : x ≤ y := List.rel_of_sorted_cons hs y (by simp)
        rw [not_le, lt_div_iff hx] at h
        have habs : |y - x| = y - x := abs_of_nonneg (by linarith)
        rw [habs] at h
        linarith

lemma chain'_imp_of_mem {α : Type} {R S : α → α → Prop} :
    ∀ (L : List α), (∀ a ∈ L, ∀ b ∈ L, R a b → S a b) → List.Chain' R L →
      List.Chain' S L
  | [], _, _ => trivial
  | [_], _, _ => by simp
  | a :: b :: L, h, hc => by
    rw [List.chain'_cons] at hc ⊢
    refine ⟨h a (by simp) b (by simp) hc.1, ?_⟩
    exact chain'_imp_of_mem (b :: L)
      (fun u hu v hv => h u (List.mem_cons_of_mem a hu) v (List.mem_cons_of_mem a hv))
      hc.2

/-- Bundled separation relation carrying the side facts needed for
transitivity. -/
def sepP (tol : ℚ) (a b : ℚ) : Prop := 0 ≤ tol ∧ 0 < a ∧ a * (1 + tol) < b

instance sepP_trans (tol : ℚ) : IsTrans ℚ (sepP tol) := by
  constructor
  intro a b c ⟨ht, ha, hab⟩ ⟨_, hb, hbc⟩
  refine ⟨ht, ha, ?_⟩
  nlinarith

lemma chunk_mean_bounds (ch : List ℚ) (hne : ch ≠ [])
    (hs : List.Sorted (· ≤ ·) ch) (hpos : ∀ x ∈ ch, 0 < x) :
    ch.headD 0 ≤ mean ch ∧ mean ch ≤ ch.getLastD 0 ∧ 0 < mean ch := by
  match ch, hne with
  | a :: t, _ =>
    refine ⟨?_, ?_, mean_pos (by simp) hpos⟩
    · apply le_mean_of_forall_le (by simp)
      intro x hx
      rcases List.mem_cons.1 hx with rfl | hx2
      · simp
      · simpa using List.rel_of_sorted_cons hs x hx2
    · exact mean_le_of_forall_le (by simp) (sorted_le_getLastD (a :: t) hs)

lemma clusterLevels_props (levels : List ℚ) (tol : ℚ)
    (hpos : ∀ x ∈ levels, 0 < x) (htol : 0 ≤ tol) :
    List.Chain' (fun a b => a * (1 + tol) < b) (clusterLevels levels tol)
    ∧ (∀ y ∈ clusterLevels levels tol, 0 < y)
    ∧ List.Sorted (· ≤ ·) (clusterLevels levels tol) := by
  have hposs : ∀ x ∈ jsSort levels, 0 < x := fun x hx =>
    hpos x ((jsSort_perm levels).mem_iff.1 hx)
  have hsorts := jsSort_sorted levels
  set l := jsSort levels with hl
  set L := chunkRuns tol l with hL
  have hchfacts : ∀ ch ∈ L, ch ≠ [] ∧ (ch.headD 0 ≤ mean ch ∧ mean ch ≤ ch.getLastD 0
      ∧ 0 < mean ch) := by
    intro ch hch
    have hne := chunkRuns_ne_nil tol l ch hch
    have hsub : ch.Sublist l := by
      have := List.sublist_flatten_of_mem hch
      rwa [hL, chunkRuns_flatten tol l] at this
    have hsch : List.Sorted (· ≤ ·) ch := hsorts.sublist hsub
    have hpch : ∀ x ∈ ch, 0 < x := fun x hx => hposs x (hsub.mem hx)
    exact ⟨hne, chunk_mean_bounds ch hne hsch hpch⟩
  have hbd := chunkRuns_boundary tol l hsorts hposs
  have hchainM : List.Chain' (fun a b => a * (1 + tol) < b) (L.map mean) := by
    rw [List.chain'_map]
    apply chain'_imp_of_mem L _ hbd
    intro c1 hc1 c2 hc2 hrel
    obtain ⟨_, hb1⟩ := hchfacts c1 hc1
    obtain ⟨_, hb2⟩ := hchfacts c2 hc2
    have h1 : mean c1 * (1 + tol) ≤ c1.getLastD 0 * (1 + tol) :=
      mul_le_mul_of_nonneg_right hb1.2.1 (by linarith)
    calc mean c1 * (1 + tol) ≤ c1.getLastD 0 * (1 + tol) := h1
      _ < c2.headD 0 := hrel
      _ ≤ mean c2 := hb2.1
  have hposM : ∀ y ∈ L.map mean, 0 < y := by
    intro y hy
    obtain ⟨ch, hch, rfl⟩ := List.mem_map.1 hy
    exact (hchfacts ch hch).2.2.2
  have hsortM : List.Sorted (· ≤ ·) (L.map mean) := by
    have hchainLe : List.Chain' (· ≤ ·) (L.map mean) := by
      apply chain'_imp_of_mem (L.map mean) _ hchainM
      intro a ha b hb hrel
      have hpa := hposM a ha
      nlinarith
    exact List.chain'_iff_pairwise.1 hchainLe
  have heq : clusterLevels levels tol = L.map mean := by
    rw [clusterLevels_eq_chunkRuns, ← hl, ← hL, jsSort_eq_self hsortM]
  rw [heq]
  exact ⟨hchainM, hposM, hsortM⟩

lemma chunkRuns_of_sep (tol : ℚ) : ∀ (l : List ℚ), (∀ x ∈ l, 0 < x) →
    List.Chain' (fun a b => a * (1 + tol) < b) l →
    chunkRuns tol l = l.map (fun x => [x]) := by
  intro l
  induction l with
  | nil => intro _ _; rfl
  | cons x xs ih =>
    cases xs with
    | nil => intro _ _; rfl
    | cons y ys =>
      intro hpos hchain
      rw [List.chain'_cons] at hchain
      have hx : 0 < x := hpos x (by simp)
      have hbreak : ¬ |y - x| / x ≤ tol := by
        rw [not_le, lt_div_iff hx]
        have h1 : tol * x < y - x := by nlinarith [hchain.1]
        calc tol * x < y - x := h1
          _ ≤ |y - x| := le_abs_self _
      rw [chunkRuns_pair, if_neg hbreak,
        ih (fun z hz => hpos z (List.mem_cons_of_mem x hz)) hchain.2]
      rfl

lemma clusterLevels_fixed (out : List ℚ) (tol : ℚ)
    (hpos : ∀ y ∈ out, 0 < y)
    (hchain : List.Chain' (fun a b => a * (1 + tol) < b) out)
    (hsort : List.Sorted (· ≤ ·) out) :
    clusterLevels out tol = out := by
  rw [clusterLevels_eq_chunkRuns, jsSort_eq_self hsort,
    chunkRuns_of_sep tol out hpos hchain, List.map_map]
  have hcomp : mean ∘ (fun x : ℚ => [x]) = id := by
    funext x
    simp [mean_singleton]
  rw [hcomp, List.map_id, jsSort_eq_self hsort]

lemma clusterLevels_pairwise_sep (levels : List ℚ) (tol : ℚ)
    (hpos : ∀ x ∈ levels, 0 < x) (htol : 0 ≤ tol) :
    List.Pairwise (sepP tol) (clusterLevels levels tol) := by
  obtain ⟨hchain, hp, -⟩ := clusterLevels_props levels tol hpos htol
  have hchain2 : List.Chain' (sepP tol) (clusterLevels levels tol) := by
    apply chain'_imp_of_mem _ _ hchain
    intro a ha b _ hr
    exact ⟨htol, hp a ha, hr⟩
  exact List.chain'_iff_pairwise.1 hchain2

/-! ### Claim C1 -/

/-- C1: the spec says `clusterLevels` merges a level into the current
cluster when it lies within 1% of the running ARITHMETIC MEAN of the
cluster.  The code compares against the LAST cluster member instead.  On
`[100, 101, 102]` the code merges all three into one cluster of mean 101
(each step is within 1% of the previous member), while the spec's
running-mean rule closes the cluster at 102 (1.5 away from the mean
100.5, more than 1%), giving `[100.5, 102]`. -/
theorem C1_counterexample :
    clusterLevels [100, 101, 102] (1 / 100) = [101]
    ∧ clusterLevelsSpecMean [100, 101, 102] (1 / 100) = [201 / 2, 102]
    ∧ clusterLevels [100, 101, 102] (1 / 100)
        ≠ clusterLevelsSpecMean [100, 101, 102] (1 / 100) := by
  have h1 : clusterLevels [100, 101, 102] (1 / 100) = [101] := by
    norm_num [clusterLevels, jsSort, List.insertionSort, List.orderedInsert, clusterLoop, mean]
  have h2 : clusterLevelsSpecMean [100, 101, 102] (1 / 100) = [201 / 2, 102] := by
    norm_num [clusterLevelsSpecMean, jsSort, List.insertionSort, List.orderedInsert,
      specClusterWalk, mean]
    rw [if_neg (by norm_num [abs_of_nonneg])]
    norm_num [List.insertionSort, List.orderedInsert, mean]
  refine ⟨h1, h2, ?_⟩
  rw [h1, h2]
  simp

/-- C1 (amended): `clusterLevels` sorts the levels ascending, splits
them into maximal runs in which each level lies within `tol` of the
PREVIOUS level (equivalently, of the last member added to the current
cluster — not the running mean), and emits the arithmetic mean of each
run, sorted ascending. -/
theorem C1_cluster_by_last_member (levels : List ℚ) (tol : ℚ) :
    clusterLevels levels tol = jsSort ((chunkRuns tol (jsSort levels)).map mean) :=
  clusterLevels_eq_chunkRuns levels tol

/-! ### Claim C9 -/

/-- C9: `clusterLevels` is idempotent on its own output: for strictly
positive levels and any nonnegative tolerance (the code's default is
0.01), applying `clusterLevels` to its own result returns that result
unchanged. -/
theorem C9_cluster_idempotent (levels : List ℚ) (tol : ℚ)
    (hpos : ∀ x ∈ levels, 0 < x) (htol : 0 ≤ tol) :
    clusterLevels (clusterLevels levels tol) tol = clusterLevels levels tol := by
  obtain ⟨hchain, hp, hsort⟩ := clusterLevels_props levels tol hpos htol
  exact clusterLevels_fixed _ tol hp hchain hsort

/-- C9 witness: idempotence evaluated at the concrete positive input
`[100, 101, 200]` with the code's default tolerance. -/
theorem C9_cluster_idempotent_witness :
    clusterLevels (clusterLevels [100, 101, 200] (1 / 100)) (1 / 100)
      = clusterLevels [100, 101, 200] (1 / 100) :=
  C9_cluster_idempotent [100, 101, 200] (1 / 100)
    (by intro x hx; fin_cases hx <;> norm_num) (by norm_num)

/-! ### Claim C5 -/

/-- C5: counterexample to the single-floor reading for
`src/src/index.js`: there the empty-validated default is 0.05 but the
floor inside `max` is 0.02, so a nonempty validated list over an empty
series calibrates to 0.02, strictly below the 0.05 returned for the
empty list — the result is not always at least the empty-case default. -/
theorem C5_counterexample :
    calibrateFromValidatedIndex [⟨1, 2, 2⟩] [] = 1 / 50
    ∧ calibrateFromValidatedIndex [] ([] : List Bar) = 1 / 20
    ∧ calibrateFromValidatedIndex [⟨1, 2, 2⟩] []
        < calibrateFromValidatedIndex [] ([] : List Bar) := by
  have h1 : calibrateFromValidatedIndex [⟨1, 2, 2⟩] [] = 1 / 50 := by
    norm_num [calibrateFromValidatedIndex, calibrateCore, levelProminence, swingsNear]
  have h2 : calibrateFromValidatedIndex [] ([] : List Bar) = 1 / 20 := rfl
  refine ⟨h1, h2, ?_⟩
  rw [h1, h2]
  norm_num

/-- C5 (amended): in `part_000` the empty-case default and the `max`
floor are both 0.02 and the claim holds as stated; in `src/src/index.js`
the empty-case default is 0.05 while the floor is 0.02, so both variants
return their empty-case constant on an empty list and never calibrate
below 0.02 — but the index.js result can fall below its own empty-case
default. -/
theorem C5_calibration_floor (validated : List ValidatedLevel) (data : List Bar) :
    calibrateFromValidated [] data = 1 / 50
    ∧ calibrateFromValidatedIndex [] data = 1 / 20
    ∧ 1 / 50 ≤ calibrateFromValidated validated data
    ∧ 1 / 50 ≤ calibrateFromValidatedIndex validated data := by
  refine ⟨rfl, rfl, ?_, ?_⟩
  · unfold calibrateFromValidated
    split
    · norm_num
    · exact le_max_left _ _
  · unfold calibrateFromValidatedIndex
    split
    · norm_num
    · exact le_max_left _ _

/-! ### Claim C6 -/

/-- C6: the similarity score equals
`100 × (count of detected levels with a validated level within 2%) /
(count of detected levels)`, lies in `[0, 100]`, and is exactly 0
whenever either input set is empty. -/
theorem C6_similarity_score (keyLevels : List ℚ) (validated : List ValidatedLevel) :
    similarityScore keyLevels validated
      = (if keyLevels = [] ∨ validated = [] then 0
        else 100 * (matchedCount keyLevels validated : ℚ) / (keyLevels.length : ℚ))
    ∧ 0 ≤ similarityScore keyLevels validated
    ∧ similarityScore keyLevels validated ≤ 100 := by
  by_cases hk : keyLevels = []
  · subst hk
    simp [similarityScore]
  · by_cases hv : validated = []
    · subst hv
      simp [similarityScore]
    · have hkl : 0 < keyLevels.length := List.length_pos.2 hk
      have hvl : 0 < validated.length := List.length_pos.2 hv
      have hklq : (0 : ℚ) < (keyLevels.length : ℚ) := by exact_mod_cast hkl
      have hscore : similarityScore keyLevels validated
          = ((keyLevels.filter fun d0 =>
              validated.any fun v => |d0 - v.level| / v.level ≤ 1 / 50).length : ℚ)
            / (keyLevels.length : ℚ) * 100 := by
        unfold similarityScore
        rw [if_pos ⟨hvl, hkl⟩]
      have hcount : (keyLevels.filter fun d0 =>
            validated.any fun v => |d0 - v.level| / v.level ≤ 1 / 50).length
          = matchedCount keyLevels validated :=
        (List.countP_eq_length_filter _ _).symm
      have hle : (keyLevels.filter fun d0 =>
            validated.any fun v => |d0 - v.level| / v.level ≤ 1 / 50).length
          ≤ keyLevels.length := List.length_filter_le _ _
      have hdiv : ((keyLevels.filter fun d0 =>
            validated.any fun v => |d0 - v.level| / v.level ≤ 1 / 50).length : ℚ)
          / (keyLevels.length : ℚ) ≤ 1 := by
        rw [div_le_one hklq]
        exact_mod_cast hle
      have hnn : (0 : ℚ) ≤ ((keyLevels.filter fun d0 =>
            validated.any fun v => |d0 - v.level| / v.level ≤ 1 / 50).length : ℚ)
          / (keyLevels.length : ℚ) := by positivity
      refine ⟨?_, ?_, ?_⟩
      · rw [hscore, if_neg (by tauto), ← hcount]
        ring
      · rw [hscore]
        positivity
      · rw [hscore]
        nlinarith

/-! ### Claim C7 -/

/-- C7: a series shorter than the 100-bar guard (which covers every
series too short for windowed detection, including the empty series)
makes `getDynamicLevels` return the explicit empty result
`{keyLevels: [], support: null, resistance: null}`. -/
theorem C7_insufficient_data (data : List Bar) (currentPrice prom : ℚ)
    (h : data.length < 100) :
    getDynamicLevelsPart000 (some data) currentPrice prom = ⟨[], none, none⟩ := by
  show (if data.length < 100 then ({ keyLevels := [], support := none, resistance := none } : LevelsResult)
    else _) = _
  rw [if_pos h]

/-- C7 witness: the empty series yields the empty result. -/
theorem C7_insufficient_data_witness :
    getDynamicLevelsPart000 (some []) 1 1 = ⟨[], none, none⟩ :=
  C7_insufficient_data [] 1 1 (by norm_num)

/-! ### Claim C10 -/

/-- C10: counterexample to "every analytical component leaves its input
arrays unchanged": `clusterLevels([2, 1])` sorts the caller's array in
place (JS `Array.prototype.sort` mutates its receiver), leaving it
`[1, 2]`. -/
theorem C10_counterexample :
    (clusterLevelsCall [2, 1] (1 / 100)).1 = [1, 2]
    ∧ (clusterLevelsCall [2, 1] (1 / 100)).1 ≠ [2, 1] := by
  have h : (clusterLevelsCall [2, 1] (1 / 100)).1 = [1, 2] := by
    norm_num [clusterLevelsCall, jsSort, List.insertionSort, List.orderedInsert]
  refine ⟨h, ?_⟩
  rw [h]
  simp

/-- C10 (amended): the only hidden mutation among the analytical
components is `clusterLevels` sorting its input array in place: after a
call the caller's array is a sorted permutation of what was passed
(unchanged when it was already sorted, and untouched for length ≤ 1),
and the returned value is still a pure function of the input. -/
theorem C10_cluster_mutation (levels : List ℚ) (tol : ℚ) :
    ((clusterLevelsCall levels tol).1).Perm levels
    ∧ (List.Sorted (· ≤ ·) levels → (clusterLevelsCall levels tol).1 = levels)
    ∧ (clusterLevelsCall levels tol).2 = clusterLevels levels tol := by
  refine ⟨?_, ?_, rfl⟩
  · show (if levels.length ≤ 1 then levels else jsSort levels).Perm levels
    split
    · exact List.Perm.refl _
    · exact jsSort_perm levels
  · intro hs
    show (if levels.length ≤ 1 then levels else jsSort levels) = levels
    split
    · rfl
    · exact jsSort_eq_self hs

/-- C10 witness: an already-sorted two-element array is left unchanged
by the call. -/
theorem C10_cluster_mutation_witness :
    (clusterLevelsCall [1, 2] 0).1 = [1, 2] :=
  (C10_cluster_mutation [1, 2] 0).2.1 (by norm_num [List.sorted_cons])

/-! ### Claim C2 -/

lemma jsPushLoop_eq_filterMap (step : ℕ → Option ℚ) (idxs : List ℕ) :
    jsPushLoop step idxs = idxs.filterMap step := by
  suffices h : ∀ (l : List ℕ) (acc : List ℚ),
      l.foldl (fun acc i =>
        match step i with
        | some v => acc ++ [v]
        | none => acc) acc
        = acc ++ l.filterMap step by
    simpa [jsPushLoop] using h idxs []
  intro l
  induction l with
  | nil => intro acc; simp
  | cons i l ih =>
    intro acc
    simp only [List.foldl_cons, List.filterMap_cons]
    cases hstep : step i with
    | none => simp [hstep, ih]
    | some v => simp [hstep, ih]

lemma supportStepPart000_eq (highs lows : List ℚ) (w d : ℕ) (prom : ℚ) (i : ℕ) :
    supportStepPart000 highs lows w d prom i =
      if w ≤ i ∧ i + w < lows.length
          ∧ lows.getD i 0 = listMin (sliceJS lows (i - w) (i + w + 1))
          ∧ prom ≤ (listMax (sliceJS highs i (min highs.length (i + d))) - lows.getD i 0)
              / lows.getD i 0
      then some (lows.getD i 0) else none := by
  simp only [supportStepPart000]
  split_ifs <;> tauto

lemma supportStepIndex_eq (lows : List ℚ) (w d : ℕ) (prom : ℚ) (i : ℕ) :
    supportStepIndex lows w d prom i =
      if w ≤ i ∧ i + w < lows.length
          ∧ lows.getD i 0 = listMin (sliceJS lows (i - w) (i + w + 1))
          ∧ prom ≤ (listMax (sliceJS lows i (min lows.length (i + d))) - lows.getD i 0)
              / lows.getD i 0
      then some (lows.getD i 0) else none := by
  simp only [supportStepIndex]
  split_ifs <;> tauto

set_option maxHeartbeats 2000000 in
set_option maxRecDepth 10000 in
/-- C2: counterexample.  On a 41-bar series whose lows dip to 90 at the
centre while the surrounding lows sit at 100 and the highs sit at 100.5
(the centre bar's high being 91), `part_000` computes the support
prominence from the HIGHS series — `(100.5 - 90) / 90 ≈ 0.1167` — and
accepts the candidate at threshold 0.115, whereas the claimed formula
over the lows series gives `(100 - 90) / 90 ≈ 0.1111` and rejects it. -/
theorem C2_counterexample :
    supportsPart000 (List.replicate 20 (201 / 2) ++ 91 :: List.replicate 20 (201 / 2))
        (List.replicate 20 100 ++ 90 :: List.replicate 20 100) 20 30 (23 / 200) = [90]
    ∧ supportCandidates (List.replicate 20 100 ++ 90 :: List.replicate 20 100)
        (List.replicate 20 100 ++ 90 :: List.replicate 20 100) 20 30 (23 / 200) = []
    ∧ supportsPart000 (List.replicate 20 (201 / 2) ++ 91 :: List.replicate 20 (201 / 2))
          (List.replicate 20 100 ++ 90 :: List.replicate 20 100) 20 30 (23 / 200)
        ≠ supportCandidates (List.replicate 20 100 ++ 90 :: List.replicate 20 100)
          (List.replicate 20 100 ++ 90 :: List.replicate 20 100) 20 30 (23 / 200) := by
  have h1 : supportsPart000 (List.replicate 20 (201 / 2) ++ 91 :: List.replicate 20 (201 / 2))
      (List.replicate 20 100 ++ 90 :: List.replicate 20 100) 20 30 (23 / 200) = [90] := by
    norm_num [supportsPart000, jsPushLoop, supportStepPart000, sliceJS, listMin, listMax,
      List.range_succ, List.replicate, abs_of_nonneg, abs_of_nonpos]
  have h2 : supportCandidates (List.replicate 20 100 ++ 90 :: List.replicate 20 100)
      (List.replicate 20 100 ++ 90 :: List.replicate 20 100) 20 30 (23 / 200) = [] := by
    norm_num [supportCandidates, sliceJS, listMin, listMax,
      List.range_succ, List.replicate, abs_of_nonneg, abs_of_nonpos]
  refine ⟨h1, h2, ?_⟩
  rw [h1, h2]
  simp

/-- C2 (amended): support detection follows the claimed formula except
for the series the prominence maximum ranges over: in `part_000` it is
the HIGHS series (`supportCandidates lows highs`), while in
`src/src/index.js` it is the lows series itself
(`supportCandidates lows lows`), as the claim states. -/
theorem C2_support_prominence_series (highs lows : List ℚ) (w d : ℕ) (prom : ℚ) :
    supportsPart000 highs lows w d prom = supportCandidates lows highs w d prom
    ∧ supportsIndex lows w d prom = supportCandidates lows lows w d prom := by
  constructor
  · rw [supportsPart000, jsPushLoop_eq_filterMap, supportCandidates]
    congr 1
    funext i
    rw [supportStepPart000_eq]
  · rw [supportsIndex, jsPushLoop_eq_filterMap, supportCandidates]
    congr 1
    funext i
    rw [supportStepIndex_eq]

/-! ### Claim C3 -/

lemma jsSliceLastElem_eq_getLast? : ∀ l : List ℚ, jsSliceLastElem l = l.getLast?
  | [] => rfl
  | [a] => rfl
  | a :: b :: t => by
    have hrec := jsSliceLastElem_eq_getLast? (b :: t)
    unfold jsSliceLastElem at hrec ⊢
    rw [List.getLast?_cons_cons, ← hrec]
    have hlen : (a :: b :: t).length - 1 = ((b :: t).length - 1) + 1 := by
      simp
    rw [hlen, List.drop_succ_cons]

/-- C3: counterexample.  With raw supports `[100]`, no resistances,
`currentPrice = 1000` and a one-bar series, the level 100 is removed by
the range filter `[300, 2500]` (no retained level exists, so the claim
says `support = null`), yet the code picks its closest support from the
RAW supports array and returns 100. -/
theorem C3_counterexample :
    (postProcessPart000 [100] [] 1000 [⟨0, 1, 1, 1, 5⟩]).support = some 100
    ∧ rangeFilter [100] 1000 = []
    ∧ greatestBelow (rangeFilter [100] 1000) 1000 = none
    ∧ (postProcessPart000 [100] [] 1000 [⟨0, 1, 1, 1, 5⟩]).support
        ≠ greatestBelow (rangeFilter [100] 1000) 1000 := by
  have h1 : (postProcessPart000 [100] [] 1000 [⟨0, 1, 1, 1, 5⟩]).support = some 100 := by
    show jsOrNull (jsSliceLastElem ([100].filter (fun s => s < 1000))) = some 100
    norm_num [jsSliceLastElem, jsOrNull]
  have h2 : rangeFilter [100] 1000 = [] := by
    norm_num [rangeFilter]
  refine ⟨h1, h2, by rw [h2]; rfl, ?_⟩
  rw [h1, h2]
  show some 100 ≠ greatestBelow [] 1000
  simp [greatestBelow, jsSort, List.insertionSort]

/-- C3 (amended): the closest picks of `part_000` are computed from the
RAW detection lists, before the range filter, volume weighting and
clustering: `support` is the LAST raw support in detection order that is
strictly below `currentPrice` (JS `slice(-1)[0]`, not the greatest
value, since the raw list is unsorted), `resistance` the FIRST raw
resistance in detection order strictly above it, with the falsy value 0
coerced to null by `|| null`. -/
theorem C3_closest_pick_raw (supports resistances : List ℚ) (currentPrice : ℚ)
    (data : List Bar) :
    (postProcessPart000 supports resistances currentPrice data).support
      = jsOrNull ((supports.filter (fun s => s < currentPrice)).getLast?)
    ∧ (postProcessPart000 supports resistances currentPrice data).resistance
      = jsOrNull ((resistances.filter (fun r => currentPrice < r)).head?) := by
  constructor
  · show jsOrNull (jsSliceLastElem _) = _
    rw [jsSliceLastElem_eq_getLast?]
  · rfl

/-! ### Claim C4 -/

/-- C4: counterexample to the degraded-mode flag.  A failed fetch served
from a stale cache returns exactly the same value-and-state pair as a
fresh cache hit: the caller receives the bare series with no flag and
cannot observe degraded mode. -/
theorem C4_counterexample :
    getHistoricalBTCData ⟨some [⟨0, 1, 1, 1, 1⟩], some 0⟩ (10 ^ 12) none
      = getHistoricalBTCData ⟨some [⟨0, 1, 1, 1, 1⟩], some 0⟩ 1 none
    ∧ ¬ ((10 : ℤ) ^ 12 - 0 < CACHE_DURATION_MS)
    ∧ ((1 : ℤ) - 0 < CACHE_DURATION_MS) := by
  have hcold : ¬ ((10 : ℤ) ^ 12 - 0 < CACHE_DURATION_MS) := by norm_num [CACHE_DURATION_MS]
  have hfresh : (1 : ℤ) - 0 < CACHE_DURATION_MS := by norm_num [CACHE_DURATION_MS]
  refine ⟨?_, hcold, hfresh⟩
  simp only [getHistoricalBTCData]
  rw [if_neg hcold, if_pos hfresh]

/-- C4 (amended): when the fetch fails (`fetched = none`) and a cache
entry exists, `getHistoricalBTCData` returns the cached series with the
entry and its timestamp untouched — but signals nothing to the caller;
when the fetch fails and no entry exists it returns null
(`DataUnavailable`), also leaving the state unchanged. -/
theorem C4_stale_serve (d : List Bar) (lt : Option ℤ) (now now2 : ℤ) :
    getHistoricalBTCData ⟨some d, lt⟩ now none = (some d, ⟨some d, lt⟩)
    ∧ getHistoricalBTCData ⟨none, lt⟩ now2 none = (none, ⟨none, lt⟩) := by
  constructor
  · cases lt with
    | none => rfl
    | some t =>
      show (if now - t < CACHE_DURATION_MS then _ else _) = _
      by_cases h : now - t < CACHE_DURATION_MS
      · rw [if_pos h]
      · rw [if_neg h]
  · cases lt with
    | none => rfl
    | some t => rfl

/-! ### Claim C8 -/

/-- C8: for every raw input and positive current price, the
post-processor's `keyLevels` output is strictly ascending, no element
lies within 1% of another (each later level exceeds the earlier by more
than 1% of the smaller), and at most 20 levels are returned. -/
theorem C8_postprocessor_invariant (supports resistances : List ℚ)
    (currentPrice : ℚ) (data : List Bar) (hp : 0 < currentPrice) :
    List.Sorted (· < ·) (postProcessPart000 supports resistances currentPrice data).keyLevels
    ∧ List.Pairwise (fun a b => a * (101 / 100) < b)
        (postProcessPart000 supports resistances currentPrice data).keyLevels
    ∧ (postProcessPart000 supports resistances currentPrice data).keyLevels.length ≤ 20 := by
  have hkey : (postProcessPart000 supports resistances currentPrice data).keyLevels
      = (clusterLevels (volumeWeightLevels (jsSort ((jsSetDedup (supports ++ resistances)).filter
          (fun l => currentPrice * (3 / 10) ≤ l ∧ l ≤ currentPrice * (5 / 2)))) data)
          (1 / 100)).take 20 := rfl
  set A := volumeWeightLevels (jsSort ((jsSetDedup (supports ++ resistances)).filter
      (fun l => currentPrice * (3 / 10) ≤ l ∧ l ≤ currentPrice * (5 / 2)))) data with hA
  have hposA : ∀ x ∈ A, 0 < x := by
    intro x hx
    have hx2 : x ∈ jsSort ((jsSetDedup (supports ++ resistances)).filter
        (fun l => currentPrice * (3 / 10) ≤ l ∧ l ≤ currentPrice * (5 / 2))) := by
      rw [hA] at hx
      unfold volumeWeightLevels at hx
      by_cases hD : data.isEmpty
      · rw [if_pos hD] at hx
        cases hx
      · rw [if_neg hD] at hx
        exact (List.mem_filter.1 hx).1
    have hx3 := (jsSort_perm _).mem_iff.1 hx2
    have hx4 := (List.mem_filter.1 hx3).2
    simp only [decide_eq_true_eq] at hx4
    nlinarith [hx4.1]
  have hpair := clusterLevels_pairwise_sep A (1 / 100) hposA (by norm_num)
  have hpair20 : List.Pairwise (sepP (1 / 100)) ((clusterLevels A (1 / 100)).take 20) :=
    List.Pairwise.sublist (List.take_sublist 20 _) hpair
  rw [hkey]
  refine ⟨?_, ?_, List.length_take_le 20 _⟩
  · apply hpair20.imp
    intro a b hab
    obtain ⟨-, ha, hlt⟩ := hab
    nlinarith
  · apply hpair20.imp
    intro a b hab
    have h2 := hab.2.2
    linarith

/-- C8 witness: the invariant instantiated at a concrete positive
price. -/
theorem C8_postprocessor_invariant_witness :
    List.Sorted (· < ·) (postProcessPart000 [1] [] 1 []).keyLevels
    ∧ List.Pairwise (fun a b => a * (101 / 100) < b)
        (postProcessPart000 [1] [] 1 []).keyLevels
    ∧ (postProcessPart000 [1] [] 1 []).keyLevels.length ≤ 20 :=
  C8_postprocessor_invariant [1] [] 1 [] (by norm_num)

end BTCLevels
